import Mathlib

/-!
Shallow embedding of the registry-client access layer of the Docker Hub MCP
server (auth manager, rate limiter, cache key generation, error handler,
Docker Hub client).  Timestamps are `Int` milliseconds (JS `Date.now()`),
HTTP status codes are `Nat`, and a JS number that may be `NaN` is modelled
as `Option Int` (`none` = `NaN`).  Network effects are modelled by passing
the outcome of the HTTP request as an explicit argument and by counting the
requests a code path performs.  Error classes carry no message strings here:
control flow in the source never branches on a message.
-/

/-- Truthiness of a JS `string | undefined` value (`undefined` and `""` are falsy). -/
def truthyOpt : Option String → Bool
  | none => false
  | some s => s ≠ ""

/-- Model of the JS expression `a || d` for `a : string | undefined` and a string default. -/
def jsOr (a : Option String) (d : String) : String :=
  match a with
  | none => d
  | some s => if s = "" then d else s

/-- Greater-or-equal on a possibly-NaN JS number (`NaN >= m` is false). -/
def jsGe (c : Option Int) (m : Int) : Bool :=
  match c with
  | none => false
  | some c => m ≤ c

/-- Subtraction of possibly-NaN JS numbers (NaN propagates). -/
def jsSub (a b : Option Int) : Option Int :=
  match a, b with
  | some a, some b => some (a - b)
  | _, _ => none

/-- Model of `Math.max(0, x)` on a possibly-NaN JS number (`Math.max(0, NaN) = NaN`). -/
def jsMax0 : Option Int → Option Int :=
  Option.map (fun v => max 0 v)

/-- Decimal-digit run value, used by the `parseInt` model; `none` when no leading digit. -/
def digitsVal (l : List Char) : Option Nat :=
  let d := l.takeWhile Char.isDigit
  if d = [] then none
  else some (d.foldl (fun a c => a * 10 + (c.toNat - 48)) 0)

/-- Model of JS `parseInt(s, 10)`: skip whitespace, optional sign, leading digits; `none` = NaN. -/
def parseIntJS (s : String) : Option Int :=
  let l := s.data.dropWhile (fun c => c = ' ' || c = '\t' || c = '\n' || c = '\r')
  match l with
  | [] => none
  | c :: rest =>
    if c = '-' then (digitsVal rest).map (fun n => -(n : Int))
    else if c = '+' then (digitsVal rest).map (fun n => (n : Int))
    else (digitsVal l).map (fun n => (n : Int))

/-- Model of JS `String.prototype.split` with a single-character separator. -/
def splitOnChar (sep : Char) : List Char → List (List Char)
  | [] => [[]]
  | c :: cs =>
    match splitOnChar sep cs with
    | [] => [[]]
    | s :: ss => if c = sep then [] :: s :: ss else (c :: s) :: ss

/-- Lexicographic comparison of character lists by code point, the order JS
`Array.prototype.sort()` applies to the (string) parameter names. -/
def lexLe : List Char → List Char → Bool
  | [], _ => true
  | _ :: _, [] => false
  | a :: as, b :: bs => if a < b then true else if b < a then false else lexLe as bs

/-- The sort order on parameter-name strings. -/
def strLe (a b : String) : Prop := lexLe a.data b.data = true

instance : DecidableRel strLe := fun a b => instDecidableEqBool (lexLe a.data b.data) true

instance : IsTotal String strLe := by
  constructor
  intro a b
  show lexLe a.data b.data = true ∨ lexLe b.data a.data = true
  generalize a.data = x
  generalize b.data = y
  induction x generalizing y with
  | nil => exact Or.inl rfl
  | cons c cs ih =>
    cases y with
    | nil => exact Or.inr rfl
    | cons d ds =>
      by_cases h1 : c < d
      · exact Or.inl (by simp [lexLe, h1])
      · by_cases h2 : d < c
        · exact Or.inr (by simp [lexLe, h2])
        · rcases ih ds with h | h
          · exact Or.inl (by simp [lexLe, h1, h2, h])
          · exact Or.inr (by simp [lexLe, h1, h2, h])

instance : IsTrans String strLe := by
  constructor
  intro a b c
  show lexLe a.data b.data = true → lexLe b.data c.data = true → lexLe a.data c.data = true
  generalize a.data = x
  generalize b.data = y
  generalize c.data = z
  induction x generalizing y z with
  | nil => intro _ _; rfl
  | cons p ps ih =>
    cases y with
    | nil => intro h; simp [lexLe] at h
    | cons q qs =>
      cases z with
      | nil => intro _ h; simp [lexLe] at h
      | cons r rs =>
        intro h1 h2
        rcases lt_trichotomy p q with hpq | hpq | hpq
        · rcases lt_trichotomy q r with hqr | hqr | hqr
          · simp [lexLe, lt_trans hpq hqr]
          · subst hqr; simp [lexLe, hpq]
          · exfalso; simp [lexLe, hqr, lt_asymm hqr] at h2
        · subst hpq
          rcases lt_trichotomy p r with hpr | hpr | hpr
          · simp [lexLe, hpr]
          · subst hpr
            simp only [lexLe, lt_self_iff_false, if_false] at h1 h2 ⊢
            exact ih qs rs h1 h2
          · exfalso; simp [lexLe, hpr, lt_asymm hpr] at h2
        · exfalso; simp [lexLe, hpq, lt_asymm hpq] at h1

instance : IsAntisymm String strLe := by
  constructor
  intro a b
  show lexLe a.data b.data = true → lexLe b.data a.data = true → a = b
  intro h1 h2
  apply String.ext
  revert h1 h2
  generalize a.data = x
  generalize b.data = y
  induction x generalizing y with
  | nil =>
    cases y with
    | nil => intro _ _; rfl
    | cons d ds => intro _ h; simp [lexLe] at h
  | cons c cs ih =>
    cases y with
    | nil => intro h _; simp [lexLe] at h
    | cons d ds =>
      intro h1 h2
      rcases lt_trichotomy c d with hcd | hcd | hcd
      · exfalso; simp [lexLe, hcd, lt_asymm hcd] at h2
      · subst hcd
        simp only [lexLe, lt_self_iff_false, if_false] at h1 h2
        rw [ih ds h1 h2]
      · exfalso; simp [lexLe, hcd, lt_asymm hcd] at h1

/-- Decidable equality for `Except`, used to evaluate results on concrete inputs. -/
instance {ε α : Type} [DecidableEq ε] [DecidableEq α] : DecidableEq (Except ε α) := fun x y =>
  match x, y with
  | .ok a, .ok b =>
    if h : a = b then .isTrue (by rw [h]) else .isFalse (by intro hc; cases hc; exact h rfl)
  | .error a, .error b =>
    if h : a = b then .isTrue (by rw [h]) else .isFalse (by intro hc; cases hc; exact h rfl)
  | .ok _, .error _ => .isFalse nofun
  | .error _, .ok _ => .isFalse nofun

/-- Model of JS `Array.prototype.join("&")`. -/
def joinAmp : List String → String
  | [] => ""
  | [p] => p
  | p :: q :: rest => p ++ "&" ++ joinAmp (q :: rest)

/-- Uppercase hexadecimal digit, as produced by `encodeURIComponent` percent escapes. -/
def hexUpper (n : Nat) : Char :=
  match n with
  | 0 => '0' | 1 => '1' | 2 => '2' | 3 => '3' | 4 => '4' | 5 => '5' | 6 => '6' | 7 => '7'
  | 8 => '8' | 9 => '9' | 10 => 'A' | 11 => 'B' | 12 => 'C' | 13 => 'D' | 14 => 'E' | _ => 'F'

/-- UTF-8 byte sequence of a Unicode scalar value, as used by `encodeURIComponent`. -/
def utf8Bytes (n : Nat) : List Nat :=
  if n < 128 then [n]
  else if n < 2048 then [192 + n / 64, 128 + n % 64]
  else if n < 65536 then [224 + n / 4096, 128 + n / 64 % 64, 128 + n % 64]
  else [240 + n / 262144, 128 + n / 4096 % 64, 128 + n / 64 % 64, 128 + n % 64]

/-- Percent escape of one byte: `%XY` with uppercase hex digits. -/
def pctEncodeByte (b : Nat) : List Char :=
  ['%', hexUpper (b / 16), hexUpper (b % 16)]

/-- Characters `encodeURIComponent` leaves unescaped: ASCII alphanumerics and `-_.!~*'()`. -/
def isUnreservedURI (c : Char) : Bool :=
  c.isAlpha || c.isDigit || ['-', '_', '.', '!', '~', '*', Char.ofNat 39, '(', ')'].contains c

/-- Encoding of one character under `encodeURIComponent`. -/
def encodeChar (c : Char) : List Char :=
  if isUnreservedURI c then [c] else (utf8Bytes c.toNat).flatMap pctEncodeByte

/-- Model of the JS builtin `encodeURIComponent`. -/
def encodeURIComponent (s : String) : String :=
  ⟨s.data.flatMap encodeChar⟩

/-- Helper for the `new URL` model: split a character list at the first `://`. -/
def splitScheme : List Char → Option (List Char × List Char)
  | ':' :: '/' :: '/' :: rest => some ([], rest)
  | c :: rest => (splitScheme rest).map (fun p => (c :: p.1, p.2))
  | [] => none

/-- Minimal model of the JS `new URL` constructor for plain `scheme://host...` URLs:
returns `(protocol including the trailing colon, hostname)`, or `none` when the
constructor would throw (no `://`, empty scheme or empty host). -/
def parseURLModel (s : String) : Option (String × String) :=
  match splitScheme s.data with
  | none => none
  | some (scheme, rest) =>
    let host := rest.takeWhile (fun c => c ≠ ':' && c ≠ '/' && c ≠ '?' && c ≠ '#')
    if scheme = [] ∨ host = [] then none
    else some (⟨scheme⟩ ++ ":", ⟨host⟩)

/-- First-match semantics of the regex `/realm="([^"]+)"/`: scan left to right for
`realm="`, take the maximal run of non-quote characters after it, and succeed when
that run is non-empty and is closed by a quote. -/
def realmScan : List Char → Option (List Char)
  | [] => none
  | c :: rest =>
    if ['r', 'e', 'a', 'l', 'm', '=', '"'].isPrefixOf (c :: rest) then
      let after := (c :: rest).drop 7
      let run := after.takeWhile (fun x => x ≠ '"')
      if run.length ≠ 0 ∧ run.length < after.length then some run else realmScan rest
    else realmScan rest

/-- Normalized error taxonomy of `src/types.ts`: `DockerHubError` and its two
subclasses.  `rateLimitError` carries `resetTime`; the subclasses fix
`statusCode` to 429 and 401 respectively; messages are elided. -/
inductive DHError where
  | rateLimitError (resetTime : Int)
  | authenticationError
  | dockerHubError (statusCode : Option Nat)
deriving DecidableEq, Repr

/-- The `statusCode` field of a normalized error (`RateLimitError` is constructed
with status 429 and `AuthenticationError` with status 401). -/
def DHError.statusCode : DHError → Option Nat
  | rateLimitError _ => some 429
  | authenticationError => some 401
  | dockerHubError sc => sc

/-- Outcome of one axios HTTP request, as seen by the error handler: a payload,
an HTTP error response (status plus the parsed `x-ratelimit-reset`-class header,
`none` when absent), a network failure with no response, or a request-setup failure. -/
inductive AxiosOutcome (α : Type) where
  | ok (data : α)
  | httpError (status : Nat) (resetHeader : Option Int)
  | networkError
  | setupError
deriving DecidableEq, Repr

/-- Status-code dispatch of `ErrorHandler.handleAxiosError` for responses:
401 becomes `AuthenticationError`, 429 becomes `RateLimitError` with the reset
taken from headers (default now + 1h), everything else keeps its status. -/
def ErrorHandler.handleAxiosStatus (now : Int) (status : Nat) (resetHeader : Option Int) : DHError :=
  match status with
  | 401 => .authenticationError
  | 429 => .rateLimitError (match resetHeader with
      | some r => r * 1000
      | none => now + 3600000)
  | s => .dockerHubError (some s)

/-- Model of `ErrorHandler.handleError` applied to the outcome of an axios call:
successful payloads pass through, errors are normalized (no response means a
plain `DockerHubError` without status). -/
def ErrorHandler.normalizeOutcome (now : Int) : AxiosOutcome α → Except DHError α
  | .ok a => .ok a
  | .httpError s rh => .error (ErrorHandler.handleAxiosStatus now s rh)
  | .networkError => .error (.dockerHubError none)
  | .setupError => .error (.dockerHubError none)

/-- Model of `ErrorHandler.isRetryable`: rate limits always, authentication never,
otherwise only 5xx and 429 status codes. -/
def ErrorHandler.isRetryable : DHError → Bool
  | .rateLimitError _ => true
  | .authenticationError => false
  | .dockerHubError (some s) => decide (500 ≤ s) || decide (s = 429)
  | .dockerHubError none => false

/-- Model of `ErrorHandler.getRetryDelay`: wait until the reported reset for rate
limits, otherwise exponential backoff `1000 * 2 ^ (attempt - 1)` capped at 30000 ms. -/
def ErrorHandler.getRetryDelay (e : DHError) (now : Int) (attempt : Nat) : Int :=
  match e with
  | .rateLimitError reset => max 0 (reset - now)
  | _ => min 30000 (1000 * 2 ^ (attempt - 1))

/-- Loop of `ErrorHandler.withErrorHandling`.  `fn n` is the outcome of the n-th
attempt; `fuel` counts the retries still available (`fuel = 0` corresponds to
`attempt === maxRetries` in the source).  Returns the final result, the number of
the last attempt made, and the list of computed retry delays. -/
def ErrorHandler.whGo (fn : Nat → Except DHError α) (now : Int) :
    Nat → Nat → Except DHError α × Nat × List Int
  | attempt, fuel =>
    match fn attempt with
    | .ok v => (.ok v, attempt, [])
    | .error e =>
      match fuel with
      | 0 => (.error e, attempt, [])
      | fuel' + 1 =>
        if ErrorHandler.isRetryable e then
          let d := ErrorHandler.getRetryDelay e now attempt
          let r := ErrorHandler.whGo fn now (attempt + 1) fuel'
          (r.1, r.2.1, d :: r.2.2)
        else (.error e, attempt, [])

/-- Model of `ErrorHandler.withErrorHandling(fn, context, maxRetries)` for
`maxRetries ≥ 1`: attempt numbers run from 1 to `maxRetries`. -/
def ErrorHandler.withErrorHandling (fn : Nat → Except DHError α) (now : Int)
    (maxRetries : Nat) : Except DHError α × Nat × List Int :=
  ErrorHandler.whGo fn now 1 (maxRetries - 1)

/-- One rate-limit map entry (`count` is a JS number and may be NaN after a
malformed header update, hence `Option Int`). -/
structure RateLimitEntry where
  count : Option Int
  resetTime : Int
deriving DecidableEq, Repr

/-- State of a `RateLimiter` instance: the `limits` map plus the two settings. -/
structure RateLimiterState where
  limits : String → Option RateLimitEntry
  maxRequests : Int
  windowMs : Int

/-- Pointwise update of the `limits` map. -/
def RateLimiter.updateMap (m : String → Option RateLimitEntry) (k : String)
    (v : Option RateLimitEntry) : String → Option RateLimitEntry :=
  fun k' => if k' = k then v else m k'

/-- Model of `RateLimiter.isAllowed`: reset/initialize on a missing or elapsed
entry, deny without mutation at the limit, otherwise increment. -/
def RateLimiter.isAllowed (st : RateLimiterState) (now : Int) (key : String) :
    Bool × RateLimiterState :=
  let fresh := RateLimiter.updateMap st.limits key
    (some { count := some 1, resetTime := now + st.windowMs })
  match st.limits key with
  | none => (true, { st with limits := fresh })
  | some entry =>
    if entry.resetTime ≤ now then
      (true, { st with limits := fresh })
    else if jsGe entry.count st.maxRequests then (false, st)
    else
      let bumped := RateLimiter.updateMap st.limits key
        (some { entry with count := entry.count.map (· + 1) })
      (true, { st with limits := bumped })

/-- Result of `RateLimiter.getInfo`. -/
structure RateLimitInfo where
  remaining : Option Int
  reset : Int
  limit : Int
deriving DecidableEq, Repr

/-- Model of `RateLimiter.getInfo`: a pure read that never mutates the state. -/
def RateLimiter.getInfo (st : RateLimiterState) (now : Int) (key : String) : RateLimitInfo :=
  match st.limits key with
  | none =>
    { remaining := some (st.maxRequests - 1), reset := now + st.windowMs, limit := st.maxRequests }
  | some entry =>
    if entry.resetTime ≤ now then
      { remaining := some (st.maxRequests - 1), reset := now + st.windowMs, limit := st.maxRequests }
    else
      { remaining := jsMax0 (jsSub (some st.maxRequests) entry.count),
        reset := entry.resetTime, limit := st.maxRequests }

/-- Model of `RateLimiter.updateFromHeaders`: a positive parsed limit overwrites
`maxRequests`; a positive parsed reset rewrites the key's entry with
`count = max 0 (limit - remaining)` and `resetTime = reset * 1000`. -/
def RateLimiter.updateFromHeaders (st : RateLimiterState) (h : String → Option String)
    (key : String) : RateLimiterState :=
  let limit := parseIntJS (jsOr (h "x-ratelimit-limit") (jsOr (h "ratelimit-limit") "0"))
  let remaining := parseIntJS (jsOr (h "x-ratelimit-remaining") (jsOr (h "ratelimit-remaining") "0"))
  let reset := parseIntJS (jsOr (h "x-ratelimit-reset") (jsOr (h "ratelimit-reset") "0"))
  let st1 := match limit with
    | some l => if 0 < l then { st with maxRequests := l } else st
    | none => st
  match reset with
  | some r =>
    if 0 < r then
      let synced := RateLimiter.updateMap st1.limits key
        (some { count := jsMax0 (jsSub limit remaining), resetTime := r * 1000 })
      { st1 with limits := synced }
    else st1
  | none => st1

/-- Observable behaviour of one `RateLimiter.execute` call: either `fn` ran
(`fnCalls` times, after waiting for the window reset when `waitedForReset`),
or a `RateLimitError` carrying the reset time was thrown. -/
inductive ExecOutcome where
  | ran (st : RateLimiterState) (waitedForReset : Bool) (fnCalls : Nat)
  | threwRateLimit (st : RateLimiterState) (reset : Int)

/-- Model of `RateLimiter.execute`: one `isAllowed` check; on denial either throw
(`throwOnLimit`) or await `waitForReset` (which only reads state via `getInfo`)
and then run `fn` exactly once, with no second check and no second increment. -/
def RateLimiter.executeModel (st : RateLimiterState) (now : Int) (key : String)
    (throwOnLimit : Bool) : ExecOutcome :=
  let r := RateLimiter.isAllowed st now key
  if r.1 then .ran r.2 false 1
  else if throwOnLimit then .threwRateLimit r.2 (RateLimiter.getInfo r.2 now key).reset
  else .ran r.2 true 1

/-- Model of `CacheManager.generateKey`: sort the parameter names, join
`name=encodeURIComponent(value)` pairs with `&`, and append to the endpoint after
a `?` (bare endpoint when there are no parameters).  The parameter map
(`Record<string, string>`) is modelled as an association list with distinct keys. -/
def CacheManager.generateKey (endpoint : String) (params : List (String × String)) : String :=
  let ks := List.insertionSort strLe (params.map Prod.fst)
  let sortedParams := joinAmp (ks.map (fun k => k ++ "=" ++ encodeURIComponent ((params.lookup k).getD "")))
  if sortedParams = "" then endpoint else endpoint ++ "?" ++ sortedParams

/-- Specification-worded form of the cache key ("sorting parameter names
lexicographically, joining k=urlencode(v) pairs with '&', and appending as
'endpoint?...', bare endpoint when the map is empty"), for the refinement part
of the key-determinism claim. -/
def CacheManager.generateKeySpec (endpoint : String) (params : List (String × String)) : String :=
  if params = [] then endpoint
  else endpoint ++ "?" ++
    joinAmp ((List.insertionSort strLe (params.map Prod.fst)).map
      (fun k => k ++ "=" ++ encodeURIComponent ((params.lookup k).getD "")))

/-- Configured Docker Hub credentials (`config.dockerhub`). -/
structure AuthCredentials where
  username : Option String
  password : Option String
  accessToken : Option String
deriving DecidableEq, Repr

/-- One cached token. -/
structure AuthTokenInfo where
  token : String
  expiresAt : Int
deriving DecidableEq, Repr

/-- The `AuthManager` token cache, keyed by registry identity plus scope. -/
def TokenCache := String → Option AuthTokenInfo

/-- Pointwise update of the token cache. -/
def TokenCache.update (m : TokenCache) (k : String) (v : Option AuthTokenInfo) : TokenCache :=
  fun k' => if k' = k then v else m k'

/-- Payload of a successful token-endpoint response. -/
structure TokenResponse where
  token : String
  expires_in : Option Int
deriving DecidableEq, Repr

/-- Model of `AuthManager.getDockerHubToken`.  `net` is the outcome the token
endpoint would give if a request were made; the `Nat` in the result counts the
token-endpoint requests actually performed by this call. -/
def AuthManager.getDockerHubToken (creds : AuthCredentials) (cache : TokenCache)
    (now : Int) (scope : Option String) (net : AxiosOutcome TokenResponse) :
    Except DHError (Option String) × TokenCache × Nat :=
  if truthyOpt creds.accessToken then (.ok creds.accessToken, cache, 0)
  else if ¬ truthyOpt creds.username ∨ ¬ truthyOpt creds.password then (.ok none, cache, 0)
  else
    let cacheKey := "dockerhub:" ++ scope.getD "default"
    let doRequest : Except DHError (Option String) × TokenCache × Nat :=
      match net with
      | .ok resp =>
        let expiresAt := now + (resp.expires_in.getD 3600) * 1000
        (.ok (some resp.token),
          TokenCache.update cache cacheKey (some { token := resp.token, expiresAt }), 1)
      | .httpError s rh =>
        match ErrorHandler.handleAxiosStatus now s rh with
        | .authenticationError => (.error .authenticationError, cache, 1)
        | _ => (.ok none, cache, 1)
      | .networkError => (.ok none, cache, 1)
      | .setupError => (.ok none, cache, 1)
    match cache cacheKey with
    | some cached => if now < cached.expiresAt then (.ok (some cached.token), cache, 0) else doRequest
    | none => doRequest

/-- Model of `AuthManager.createAuthHeaders` on the default-registry path
(no `registryAuth` argument): delegate to `getDockerHubToken` and emit a
`Bearer` header exactly when a truthy token came back. -/
def AuthManager.createAuthHeaders (creds : AuthCredentials) (cache : TokenCache)
    (now : Int) (scope : Option String) (net : AxiosOutcome TokenResponse) :
    Except DHError (List (String × String)) × TokenCache × Nat :=
  let r := AuthManager.getDockerHubToken creds cache now scope net
  match r.1 with
  | .error e => (.error e, r.2.1, r.2.2)
  | .ok token =>
    match token with
    | some t =>
      if t ≠ "" then (.ok [("Authorization", "Bearer " ++ t)], r.2.1, r.2.2)
      else (.ok [], r.2.1, r.2.2)
    | none => (.ok [], r.2.1, r.2.2)

/-- Outcome of the `GET <registryUrl>/v2/` discovery probe.  The request is made
with `validateStatus: status === 401`, so axios resolves only on a 401 response;
any other status rejects and lands in the catch block. -/
inductive ProbeOutcome where
  | networkFailure
  | response (status : Nat) (wwwAuthenticate : Option String)
deriving DecidableEq, Repr

/-- Model of `AuthManager.discoverAuthEndpoint`: on a 401 challenge return the
parsed `realm`, or fall back to `<protocol>//auth.<hostname>/token`; every
failure path (network failure, a non-401 status rejected by `validateStatus`,
or an unparseable registry URL in the fallback) returns `null`. -/
def AuthManager.discoverAuthEndpoint (registryUrl : String) (probe : ProbeOutcome) :
    Option String :=
  match probe with
  | .networkFailure => none
  | .response status wwwAuth =>
    if status = 401 then
      let fallback : Option String :=
        (parseURLModel registryUrl).map (fun p => p.1 ++ "//auth." ++ p.2 ++ "/token")
      match wwwAuth with
      | some hdr =>
        match realmScan hdr.data with
        | some realm => some ⟨realm⟩
        | none => fallback
      | none => fallback
    else none

/-- A private-registry descriptor (`RegistryAuth`). -/
structure RegistryAuthM where
  url : String
  credentials : AuthCredentials

/-- Model of `AuthManager.getPrivateRegistryToken`.  `probe` is the outcome of
the discovery probe and `net` the outcome of the token request; the two `Nat`s
count the discovery-probe requests and the token-endpoint requests performed.
Note the source runs `discoverAuthEndpoint` before consulting the token cache. -/
def AuthManager.getPrivateRegistryToken (ra : RegistryAuthM) (cache : TokenCache)
    (now : Int) (scope : Option String) (probe : ProbeOutcome)
    (net : AxiosOutcome TokenResponse) :
    Except DHError (Option String) × TokenCache × Nat × Nat :=
  if ¬ truthyOpt ra.credentials.username ∨ ¬ truthyOpt ra.credentials.password then
    (.ok none, cache, 0, 0)
  else
    match AuthManager.discoverAuthEndpoint ra.url probe with
    | none => (.error .authenticationError, cache, 1, 0)
    | some _ =>
      let cacheKey := "registry:" ++ ra.url ++ ":" ++ scope.getD "default"
      let doRequest : Except DHError (Option String) × TokenCache × Nat × Nat :=
        match parseURLModel ra.url with
        | none => (.error (.dockerHubError none), cache, 1, 0)
        | some _ =>
          match net with
          | .ok resp =>
            let expiresAt := now + (resp.expires_in.getD 3600) * 1000
            (.ok (some resp.token),
              TokenCache.update cache cacheKey (some { token := resp.token, expiresAt }), 1, 1)
          | .httpError s rh => (.error (ErrorHandler.handleAxiosStatus now s rh), cache, 1, 1)
          | .networkError => (.error (.dockerHubError none), cache, 1, 1)
          | .setupError => (.error (.dockerHubError none), cache, 1, 1)
      match cache cacheKey with
      | some cached =>
        if now < cached.expiresAt then (.ok (some cached.token), cache, 1, 0) else doRequest
      | none => doRequest

/-- Model of `DockerHubClient.parseRepository`: split on `/`; one segment maps to
the `library` namespace, two segments map to `(namespace, name)`, anything longer
is rejected locally with a validation error. -/
def DockerHubClient.parseRepository (repository : String) :
    Except String (String × String) :=
  match splitOnChar '/' repository.data with
  | [p] => .ok ("library", ⟨p⟩)
  | [p0, p1] => .ok (⟨p0⟩, ⟨p1⟩)
  | _ => .error ("Invalid repository format: " ++ repository)

/-- Raw scan payload returned by the vulnerability endpoint (fields the transform
reads, each possibly absent). -/
structure ScanData where
  vulnerability_count : Option Nat
  high_vulnerability_count : Option Nat
  medium_vulnerability_count : Option Nat
  low_vulnerability_count : Option Nat
  unknown_vulnerability_count : Option Nat
  vulnerabilities : Option (List String)
deriving DecidableEq, Repr

/-- Summary bucket of a vulnerability report. -/
structure VulnSummary where
  total : Nat
  high : Nat
  medium : Nat
  low : Nat
  unknown : Nat
deriving DecidableEq, Repr

/-- Standardized vulnerability report produced by `transformScanResults`. -/
structure VulnerabilityReport where
  namespaceName : String
  repository : String
  tag : String
  summary : VulnSummary
  vulnerabilities : List String
deriving DecidableEq, Repr

/-- Model of `DockerHubClient.transformScanResults` (missing counts default to 0). -/
def DockerHubClient.transformScanResults (d : ScanData) (ns repo tag : String) :
    VulnerabilityReport :=
  { namespaceName := ns, repository := repo, tag := tag,
    summary :=
      { total := d.vulnerability_count.getD 0,
        high := d.high_vulnerability_count.getD 0,
        medium := d.medium_vulnerability_count.getD 0,
        low := d.low_vulnerability_count.getD 0,
        unknown := d.unknown_vulnerability_count.getD 0 },
    vulnerabilities := d.vulnerabilities.getD [] }

/-- Inner body of `DockerHubClient.getVulnerabilities` (one attempt): parse the
repository (a parse failure escapes as a status-less error), then either
transform a successful scan payload, swallow a 404 as `null`, or rethrow the
normalized error. -/
def DockerHubClient.getVulnerabilitiesInner (repository tag : String) (now : Int)
    (net : AxiosOutcome ScanData) : Except DHError (Option VulnerabilityReport) :=
  match DockerHubClient.parseRepository repository with
  | .error _ => .error (.dockerHubError none)
  | .ok (ns, name) =>
    match ErrorHandler.normalizeOutcome now net with
    | .ok data => .ok (some (DockerHubClient.transformScanResults data ns name tag))
    | .error e => if e.statusCode = some 404 then .ok none else .error e

/-- Model of `DockerHubClient.getVulnerabilities` including the surrounding
`ErrorHandler.withErrorHandling` wrapper (the upstream outcome is the same on
every retry attempt). -/
def DockerHubClient.getVulnerabilities (repository tag : String) (now : Int)
    (net : AxiosOutcome ScanData) : Except DHError (Option VulnerabilityReport) :=
  (ErrorHandler.withErrorHandling
    (fun _ => DockerHubClient.getVulnerabilitiesInner repository tag now net) now 3).1

/-! Helper lemmas about the JS `split` model. -/

theorem splitOnChar_ne_nil (sep : Char) (l : List Char) : splitOnChar sep l ≠ [] := by
  cases l with
  | nil => simp [splitOnChar]
  | cons c cs =>
    simp only [splitOnChar]
    rcases splitOnChar sep cs with _ | ⟨s, ss⟩
    · simp
    · by_cases hc : c = sep <;> simp [hc]

theorem splitOnChar_not_mem (sep : Char) (l : List Char) (h : sep ∉ l) :
    splitOnChar sep l = [l] := by
  induction l with
  | nil => rfl
  | cons c cs ih =>
    have hc : c ≠ sep := fun hc => h (hc ▸ List.mem_cons_self c cs)
    have hcs : sep ∉ cs := fun hm => h (List.mem_cons_of_mem c hm)
    simp [splitOnChar, ih hcs, hc]

theorem splitOnChar_append (sep : Char) (a b : List Char) (ha : sep ∉ a) :
    splitOnChar sep (a ++ sep :: b) = a :: splitOnChar sep b := by
  induction a with
  | nil =>
    rcases h : splitOnChar sep b with _ | ⟨s, ss⟩
    · exact absurd h (splitOnChar_ne_nil sep b)
    · simp [splitOnChar, h]
  | cons c a' ih =>
    have hc : c ≠ sep := fun hc => ha (hc ▸ List.mem_cons_self c a')
    have ha' : sep ∉ a' := fun hm => ha (List.mem_cons_of_mem c hm)
    simp only [List.cons_append, List.append_eq, splitOnChar]
    rw [ih ha']
    simp [hc]

theorem splitOnChar_length (sep : Char) (l : List Char) :
    (splitOnChar sep l).length = l.count sep + 1 := by
  induction l with
  | nil => simp [splitOnChar]
  | cons c cs ih =>
    rcases h : splitOnChar sep cs with _ | ⟨s, ss⟩
    · exact absurd h (splitOnChar_ne_nil sep cs)
    · rw [h] at ih
      simp only [List.length_cons] at ih
      by_cases hc : c = sep <;>
        simp [splitOnChar, h, hc, List.count_cons] <;> omega

theorem strMk_data (s : String) : String.mk s.data = s := by
  cases s
  rfl

/-- C5: repository-reference parsing is total, deterministic, and follows the shared
split-on-slash rule: no slash maps to the `library` namespace, one slash splits into
`(namespace, name)`, and two or more slashes are rejected locally with the
"Invalid repository format" validation error. -/
theorem parseRepository_shared_rule :
    (∀ s : String, '/' ∉ s.data →
      DockerHubClient.parseRepository s = .ok ("library", s))
    ∧ (∀ a b : String, '/' ∉ a.data → '/' ∉ b.data →
      DockerHubClient.parseRepository (a ++ "/" ++ b) = .ok (a, b))
    ∧ (∀ s : String, 2 ≤ s.data.count '/' →
      DockerHubClient.parseRepository s = .error ("Invalid repository format: " ++ s)) := by
  refine ⟨fun s h => ?_, fun a b ha hb => ?_, fun s h => ?_⟩
  · simp [DockerHubClient.parseRepository, splitOnChar_not_mem _ _ h, strMk_data]
  · have hdata : (a ++ "/" ++ b).data = a.data ++ '/' :: b.data := by
      simp [String.data_append]
    simp [DockerHubClient.parseRepository, hdata, splitOnChar_append _ _ _ ha,
      splitOnChar_not_mem _ _ hb, strMk_data]
  · have hlen : 3 ≤ (splitOnChar '/' s.data).length := by
      rw [splitOnChar_length]
      omega
    rcases hsp : splitOnChar '/' s.data with _ | ⟨x, _ | ⟨y, _ | ⟨z, rest⟩⟩⟩ <;>
      rw [hsp] at hlen <;> simp at hlen
    simp [DockerHubClient.parseRepository, hsp]

/-- Witness for C5 at the spec's three example inputs. -/
theorem parseRepository_shared_rule_witness :
    DockerHubClient.parseRepository "nginx" = .ok ("library", "nginx")
    ∧ DockerHubClient.parseRepository ("user" ++ "/" ++ "repo") = .ok ("user", "repo")
    ∧ DockerHubClient.parseRepository "a/b/c" =
        .error ("Invalid repository format: " ++ "a/b/c") :=
  ⟨parseRepository_shared_rule.1 "nginx" (by decide),
   parseRepository_shared_rule.2.1 "user" "repo" (by decide) (by decide),
   parseRepository_shared_rule.2.2 "a/b/c" (by decide)⟩

/-- C2: the fixed-window state machine of `isAllowed`, for every key. With
`maxRequests = 2` and `windowMs = 1000` and no header updates, two calls inside
the window are allowed (counting 1 then 2), a third call inside the window is
denied and leaves the whole state (in particular the count) unchanged, and the
first call at or after the window reset is allowed again and resets the entry to
count 1 with a fresh `resetTime = now + windowMs`. -/
theorem rateLimiter_fixed_window (key : String) (st0 st1 st2 st3 st4 : RateLimiterState)
    (t1 t2 t3 t4 : Int) (r1 r2 r3 r4 : Bool)
    (hmax : st0.maxRequests = 2) (hwin : st0.windowMs = 1000) (hnone : st0.limits key = none)
    (h2 : t2 < t1 + 1000) (h3 : t3 < t1 + 1000) (h4 : t1 + 1000 ≤ t4)
    (hc1 : RateLimiter.isAllowed st0 t1 key = (r1, st1))
    (hc2 : RateLimiter.isAllowed st1 t2 key = (r2, st2))
    (hc3 : RateLimiter.isAllowed st2 t3 key = (r3, st3))
    (hc4 : RateLimiter.isAllowed st3 t4 key = (r4, st4)) :
    r1 = true ∧ st1.limits key = some { count := some 1, resetTime := t1 + 1000 }
    ∧ r2 = true ∧ st2.limits key = some { count := some 2, resetTime := t1 + 1000 }
    ∧ r3 = false ∧ st3 = st2
    ∧ r4 = true ∧ st4.limits key = some { count := some 1, resetTime := t4 + 1000 } := by
  have e1 : RateLimiter.isAllowed st0 t1 key =
      (true, { st0 with
        limits := RateLimiter.updateMap st0.limits key (some { count := some 1, resetTime := t1 + 1000 }) }) := by
    simp [RateLimiter.isAllowed, hnone, hwin]
  rw [e1] at hc1
  obtain ⟨hr1, hst1⟩ := Prod.mk.injEq .. ▸ hc1
  have hl1 : st1.limits key = some { count := some 1, resetTime := t1 + 1000 } := by
    rw [← hst1]; simp [RateLimiter.updateMap]
  have hm1 : st1.maxRequests = 2 := by rw [← hst1]; exact hmax
  have e2 : RateLimiter.isAllowed st1 t2 key =
      (true, { st1 with
        limits := RateLimiter.updateMap st1.limits key (some { count := some 2, resetTime := t1 + 1000 }) }) := by
    simp only [RateLimiter.isAllowed, hl1]
    rw [if_neg (by omega)]
    rw [if_neg (by simp [jsGe, hm1])]
    simp
  rw [e2] at hc2
  obtain ⟨hr2, hst2⟩ := Prod.mk.injEq .. ▸ hc2
  have hl2 : st2.limits key = some { count := some 2, resetTime := t1 + 1000 } := by
    rw [← hst2]; simp [RateLimiter.updateMap]
  have hm2 : st2.maxRequests = 2 := by rw [← hst2, ← hst1]; exact hmax
  have hw2 : st2.windowMs = 1000 := by rw [← hst2, ← hst1]; exact hwin
  have e3 : RateLimiter.isAllowed st2 t3 key = (false, st2) := by
    simp only [RateLimiter.isAllowed, hl2]
    rw [if_neg (by omega)]
    rw [if_pos (by simp [jsGe, hm2])]
  rw [e3] at hc3
  obtain ⟨hr3, hst3⟩ := Prod.mk.injEq .. ▸ hc3
  have hl3 : st3.limits key = some { count := some 2, resetTime := t1 + 1000 } := by
    rw [← hst3]; exact hl2
  have hw3 : st3.windowMs = 1000 := by rw [← hst3]; exact hw2
  have e4 : RateLimiter.isAllowed st3 t4 key =
      (true, { st3 with
        limits := RateLimiter.updateMap st3.limits key (some { count := some 1, resetTime := t4 + st3.windowMs }) }) := by
    simp only [RateLimiter.isAllowed, hl3]
    rw [if_pos (by omega)]
  rw [e4] at hc4
  obtain ⟨hr4, hst4⟩ := Prod.mk.injEq .. ▸ hc4
  have hl4 : st4.limits key = some { count := some 1, resetTime := t4 + 1000 } := by
    rw [← hst4]; simp [RateLimiter.updateMap, hw3]
  exact ⟨hr1.symm, hl1, hr2.symm, hl2, hr3.symm, hst3.symm, hr4.symm, hl4⟩

/-- Witness for C2: a concrete four-call run with `maxRequests = 2`, `windowMs = 1000`. -/
theorem rateLimiter_fixed_window_witness :
    let st0 : RateLimiterState := ⟨fun _ => none, 2, 1000⟩
    let c1 := RateLimiter.isAllowed st0 0 "k"
    let c2 := RateLimiter.isAllowed c1.2 10 "k"
    let c3 := RateLimiter.isAllowed c2.2 20 "k"
    let c4 := RateLimiter.isAllowed c3.2 1000 "k"
    c1.1 = true ∧ c2.1 = true ∧ c3.1 = false ∧ c4.1 = true
    ∧ c4.2.limits "k" = some { count := some 1, resetTime := 1000 + 1000 } := by
  intro st0 c1 c2 c3 c4
  obtain ⟨h1, _, h2, _, h3, _, h4, h5⟩ :=
    rateLimiter_fixed_window "k" st0 c1.2 c2.2 c3.2 c4.2 0 10 20 1000 c1.1 c2.1 c3.1 c4.1
      rfl rfl rfl (by omega) (by omega) (by omega) rfl rfl rfl rfl
  exact ⟨h1, h2, h3, h4, h5⟩

/-- C6: `updateFromHeaders` synchronizes the limiter with server-reported headers.
When the parsed limit header is positive it overwrites `maxRequests`; when the
parsed reset header is positive it rewrites the key's entry with
`resetTime = reset * 1000` and `count = max 0 (limit - remaining)`; a subsequent
`getInfo` (a pure read, the state is not mutated) then reports
`remaining = remaining-header` and `limit = limit-header` while the reset lies in
the future and `0 ≤ remaining ≤ limit` — in particular `remaining = 3`,
`limit = 10` for headers `limit '10'`, `remaining '3'` and a future reset. -/
theorem updateFromHeaders_sync (st : RateLimiterState) (key : String)
    (h : String → Option String) (lim rem res now : Int)
    (hlim : parseIntJS (jsOr (h "x-ratelimit-limit") (jsOr (h "ratelimit-limit") "0")) = some lim)
    (hrem : parseIntJS (jsOr (h "x-ratelimit-remaining") (jsOr (h "ratelimit-remaining") "0")) = some rem)
    (hres : parseIntJS (jsOr (h "x-ratelimit-reset") (jsOr (h "ratelimit-reset") "0")) = some res)
    (hlp : 0 < lim) (hrp : 0 < res) :
    (RateLimiter.updateFromHeaders st h key).maxRequests = lim
    ∧ (RateLimiter.updateFromHeaders st h key).limits key =
        some { count := some (max 0 (lim - rem)), resetTime := res * 1000 }
    ∧ (0 ≤ rem → rem ≤ lim → now < res * 1000 →
        RateLimiter.getInfo (RateLimiter.updateFromHeaders st h key) now key =
          { remaining := some rem, reset := res * 1000, limit := lim }) := by
  have hupd : RateLimiter.updateFromHeaders st h key =
      ⟨RateLimiter.updateMap st.limits key (some { count := some (max 0 (lim - rem)), resetTime := res * 1000 }), lim, st.windowMs⟩ := by
    simp only [RateLimiter.updateFromHeaders, hlim, hrem, hres]
    rw [if_pos hlp, if_pos hrp]
    simp [jsSub, jsMax0]
  have hlimits : (RateLimiter.updateFromHeaders st h key).limits key =
      some { count := some (max 0 (lim - rem)), resetTime := res * 1000 } := by
    rw [hupd]; simp [RateLimiter.updateMap]
  have hmaxr : (RateLimiter.updateFromHeaders st h key).maxRequests = lim := by rw [hupd]
  refine ⟨hmaxr, hlimits, fun h0 hle hfut => ?_⟩
  simp only [RateLimiter.getInfo, hlimits, hmaxr]
  rw [if_neg (by omega)]
  have hcount : max 0 (lim - max 0 (lim - rem)) = rem := by
    simp only [max_def]
    split_ifs <;> omega
  simp [jsSub, jsMax0, hcount]

/-- Witness for C6 with the spec's header values and a future reset. -/
theorem updateFromHeaders_sync_witness :
    let h : String → Option String := fun k =>
      if k = "x-ratelimit-limit" then some "10"
      else if k = "x-ratelimit-remaining" then some "3"
      else if k = "x-ratelimit-reset" then some "2000000000" else none
    let st : RateLimiterState := ⟨fun _ => none, 100, 3600000⟩
    (RateLimiter.updateFromHeaders st h "k").maxRequests = 10
    ∧ (RateLimiter.updateFromHeaders st h "k").limits "k" =
        some { count := some (max 0 (10 - 3)), resetTime := 2000000000 * 1000 }
    ∧ RateLimiter.getInfo (RateLimiter.updateFromHeaders st h "k") 0 "k" =
        { remaining := some 3, reset := 2000000000 * 1000, limit := 10 } := by
  intro h st
  obtain ⟨h1, h2, h3⟩ :=
    updateFromHeaders_sync st "k" h 10 3 2000000000 0
      (by decide) (by decide) (by decide) (by decide) (by decide)
  exact ⟨h1, h2, h3 (by decide) (by decide) (by decide)⟩

/-- C10: when `execute(fn, key, throwOnLimit := false)` finds the key rate limited,
it waits for the reset and then runs `fn` exactly once without re-checking
`isAllowed` and without incrementing the count: the denied `isAllowed` call leaves
the state unchanged, so the post-wait request is not counted against the new window. -/
theorem execute_denied_waits (st : RateLimiterState) (now : Int) (key : String)
    (hden : (RateLimiter.isAllowed st now key).1 = false) :
    RateLimiter.executeModel st now key false = .ran st true 1
    ∧ (RateLimiter.isAllowed st now key).2 = st := by
  have hst : (RateLimiter.isAllowed st now key).2 = st := by
    rcases hl : st.limits key with _ | entry
    · have e : (RateLimiter.isAllowed st now key).1 = true := by
        simp [RateLimiter.isAllowed, hl]
      rw [e] at hden; cases hden
    · by_cases hrt : entry.resetTime ≤ now
      · have e : (RateLimiter.isAllowed st now key).1 = true := by
          simp [RateLimiter.isAllowed, hl, hrt]
        rw [e] at hden; cases hden
      · by_cases hge : jsGe entry.count st.maxRequests = true
        · simp [RateLimiter.isAllowed, hl, hrt, hge]
        · have e : (RateLimiter.isAllowed st now key).1 = true := by
            simp [RateLimiter.isAllowed, hl, hrt, hge]
          rw [e] at hden; cases hden
  exact ⟨by simp [RateLimiter.executeModel, hden, hst], hst⟩

/-- Witness for C10: a key already at its limit inside the window. -/
theorem execute_denied_waits_witness :
    let st : RateLimiterState := ⟨fun k => if k = "k" then some ⟨some 2, 1000⟩ else none, 2, 1000⟩
    RateLimiter.executeModel st 0 "k" false = .ran st true 1
    ∧ (RateLimiter.isAllowed st 0 "k").2 = st := by
  intro st
  exact execute_denied_waits st 0 "k" (by decide)

/-- Unfolding of `whGo` on the last attempt whose outcome is an error. -/
theorem whGo_zero_err {α : Type} {fn : Nat → Except DHError α} {attempt : Nat} {e : DHError}
    (now : Int) (h : fn attempt = .error e) :
    ErrorHandler.whGo fn now attempt 0 = (.error e, attempt, []) := by
  rw [ErrorHandler.whGo, h]

/-- Unfolding of `whGo` on an attempt that succeeds. -/
theorem whGo_ok {α : Type} {fn : Nat → Except DHError α} {attempt : Nat} {v : α}
    (now : Int) (fuel : Nat) (h : fn attempt = .ok v) :
    ErrorHandler.whGo fn now attempt fuel = (.ok v, attempt, []) := by
  cases fuel <;> rw [ErrorHandler.whGo, h]

/-- Unfolding of `whGo` on a failed attempt with retries left and a
non-retryable error. -/
theorem whGo_succ_err_nr {α : Type} {fn : Nat → Except DHError α} {attempt fuel : Nat}
    {e : DHError} (now : Int) (h : fn attempt = .error e)
    (hr : ErrorHandler.isRetryable e = false) :
    ErrorHandler.whGo fn now attempt (fuel + 1) = (.error e, attempt, []) := by
  rw [ErrorHandler.whGo, h]
  simp [hr]

/-- Unfolding of `whGo` on a failed attempt with retries left and a retryable
error: wait the computed delay and move to the next attempt. -/
theorem whGo_succ_err_r {α : Type} {fn : Nat → Except DHError α} {attempt fuel : Nat}
    {e : DHError} (now : Int) (h : fn attempt = .error e)
    (hr : ErrorHandler.isRetryable e = true) :
    ErrorHandler.whGo fn now attempt (fuel + 1) =
      ((ErrorHandler.whGo fn now (attempt + 1) fuel).1,
        (ErrorHandler.whGo fn now (attempt + 1) fuel).2.1,
        ErrorHandler.getRetryDelay e now attempt ::
          (ErrorHandler.whGo fn now (attempt + 1) fuel).2.2) := by
  rw [ErrorHandler.whGo, h]
  simp [hr]

/-- Attempt numbers never exceed the retry budget remaining in `fuel`. -/
theorem whGo_attempt_le {α : Type} (fn : Nat → Except DHError α) (now : Int) :
    ∀ fuel attempt, (ErrorHandler.whGo fn now attempt fuel).2.1 ≤ attempt + fuel := by
  intro fuel
  induction fuel with
  | zero =>
    intro attempt
    cases hf : fn attempt with
    | ok v => rw [whGo_ok now 0 hf]; simp
    | error e => rw [whGo_zero_err now hf]; simp
  | succ fuel ih =>
    intro attempt
    cases hf : fn attempt with
    | ok v => rw [whGo_ok now (fuel + 1) hf]; simp
    | error e =>
      by_cases hr : ErrorHandler.isRetryable e = true
      · rw [whGo_succ_err_r now hf hr]
        have h := ih (attempt + 1)
        show (ErrorHandler.whGo fn now (attempt + 1) fuel).2.1 ≤ attempt + (fuel + 1)
        omega
      · have hr' : ErrorHandler.isRetryable e = false := by simpa using hr
        rw [whGo_succ_err_nr now hf hr']
        simp

/-- One-step unfolding of the wrapper at the default budget of 3 attempts when
the first attempt succeeds. -/
theorem withEH_first_ok {α : Type} (fn : Nat → Except DHError α) (now : Int) (v : α)
    (h : fn 1 = .ok v) : ErrorHandler.withErrorHandling fn now 3 = (.ok v, 1, []) := by
  rw [show ErrorHandler.withErrorHandling fn now 3 = ErrorHandler.whGo fn now 1 2 from rfl,
    whGo_ok now 2 h]

/-- A call whose outcome is the same error on every attempt ends with that error,
whether or not the error is retryable. -/
theorem withEH_const_error {α : Type} (e : DHError) (now : Int)
    (fn : Nat → Except DHError α) (hfn : ∀ n, fn n = .error e) :
    (ErrorHandler.withErrorHandling fn now 3).1 = .error e := by
  have key : ∀ fuel attempt, (ErrorHandler.whGo fn now attempt fuel).1 = .error e := by
    intro fuel
    induction fuel with
    | zero =>
      intro attempt
      rw [whGo_zero_err now (hfn attempt)]
    | succ fuel ih =>
      intro attempt
      by_cases hr : ErrorHandler.isRetryable e = true
      · rw [whGo_succ_err_r now (hfn attempt) hr]
        exact ih (attempt + 1)
      · have hr' : ErrorHandler.isRetryable e = false := by simpa using hr
        rw [whGo_succ_err_nr now (hfn attempt) hr']
  exact key 2 1

/-- C4: the uniform retry wrapper. `isRetryable` holds exactly for rate-limit
errors (the `RateLimitError` class, or a 429 status) and upstream 5xx errors;
`AuthenticationError` is never retryable; a non-retryable first failure is
surfaced immediately without retrying; at most 3 attempts are ever made; the
wait is `max 0 (resetTime - now)` for rate limits and otherwise the backoff
`min 30000 (1000 * 2 ^ (attempt - 1))`; and when all three attempts fail with
retryable errors the last normalized error is re-raised after the two waits. -/
theorem withErrorHandling_retry_policy :
    (∀ e : DHError, ErrorHandler.isRetryable e = true ↔
      ((∃ r, e = .rateLimitError r) ∨ (∃ s, e.statusCode = some s ∧ (500 ≤ s ∨ s = 429))))
    ∧ (ErrorHandler.isRetryable .authenticationError = false)
    ∧ (∀ (α : Type) (now : Int) (fn : Nat → Except DHError α) (e : DHError),
        fn 1 = .error e → ErrorHandler.isRetryable e = false →
        ErrorHandler.withErrorHandling fn now 3 = (.error e, 1, []))
    ∧ (∀ (α : Type) (now : Int) (fn : Nat → Except DHError α),
        (ErrorHandler.withErrorHandling fn now 3).2.1 ≤ 3)
    ∧ (∀ (now r : Int) (a : Nat),
        ErrorHandler.getRetryDelay (.rateLimitError r) now a = max 0 (r - now))
    ∧ (∀ (now : Int) (sc : Option Nat) (a : Nat),
        ErrorHandler.getRetryDelay (.dockerHubError sc) now a = min 30000 (1000 * 2 ^ (a - 1)))
    ∧ (∀ (α : Type) (now : Int) (fn : Nat → Except DHError α) (e1 e2 e3 : DHError),
        fn 1 = .error e1 → fn 2 = .error e2 → fn 3 = .error e3 →
        ErrorHandler.isRetryable e1 = true → ErrorHandler.isRetryable e2 = true →
        ErrorHandler.withErrorHandling fn now 3 =
          (.error e3, 3, [ErrorHandler.getRetryDelay e1 now 1, ErrorHandler.getRetryDelay e2 now 2])) := by
  refine ⟨?_, rfl, ?_, ?_, fun _ _ _ => rfl, fun _ _ _ => rfl, ?_⟩
  · intro e
    rcases e with r | _ | sc
    · simp [ErrorHandler.isRetryable, DHError.statusCode]
    · simp [ErrorHandler.isRetryable, DHError.statusCode]
    · rcases sc with _ | s
      · simp [ErrorHandler.isRetryable, DHError.statusCode]
      · simp [ErrorHandler.isRetryable, DHError.statusCode]
  · intro α now fn e h1 hret
    rw [show ErrorHandler.withErrorHandling fn now 3 = ErrorHandler.whGo fn now 1 2 from rfl,
      whGo_succ_err_nr now h1 hret]
  · intro α now fn
    have h := whGo_attempt_le fn now 2 1
    exact h
  · intro α now fn e1 e2 e3 h1 h2 h3 hr1 hr2
    rw [show ErrorHandler.withErrorHandling fn now 3 = ErrorHandler.whGo fn now 1 2 from rfl,
      whGo_succ_err_r now h1 hr1, whGo_succ_err_r now h2 hr2, whGo_zero_err now h3]

/-- Witness for C4: an authentication failure is surfaced on attempt 1 with no
waits, and a persistent 503 is retried twice with backoffs 1000 and 2000 ms and
then re-raised. -/
theorem withErrorHandling_retry_policy_witness :
    ErrorHandler.withErrorHandling
        (fun _ => (.error DHError.authenticationError : Except DHError Nat)) 0 3 =
      (.error .authenticationError, 1, [])
    ∧ ErrorHandler.withErrorHandling
        (fun _ => (.error (DHError.dockerHubError (some 503)) : Except DHError Nat)) 0 3 =
      (.error (.dockerHubError (some 503)), 3, [1000, 2000]) := by
  constructor
  · exact withErrorHandling_retry_policy.2.2.1 Nat 0 _ _ rfl (by decide)
  · have h := withErrorHandling_retry_policy.2.2.2.2.2.2 Nat 0
      (fun _ => .error (.dockerHubError (some 503))) _ _ _ rfl rfl rfl (by decide) (by decide)
    rw [h]
    decide

/-- C8: `getVulnerabilities` resolves to `null` (a successful result) whenever
the upstream scan endpoint fails with a normalized 404, and propagates the
normalized error for every other upstream failure (after the uniform retry
wrapper has run its course); a successful payload is transformed and returned. -/
theorem getVulnerabilities_notFound_null (repo tag ns name : String) (now : Int)
    (hp : DockerHubClient.parseRepository repo = .ok (ns, name)) :
    (∀ rh : Option Int,
      DockerHubClient.getVulnerabilities repo tag now (.httpError 404 rh) = .ok none)
    ∧ (∀ (s : Nat) (rh : Option Int), s ≠ 404 →
      DockerHubClient.getVulnerabilities repo tag now (.httpError s rh) =
        .error (ErrorHandler.handleAxiosStatus now s rh))
    ∧ (DockerHubClient.getVulnerabilities repo tag now .networkError =
        .error (.dockerHubError none))
    ∧ (∀ d : ScanData, DockerHubClient.getVulnerabilities repo tag now (.ok d) =
        .ok (some (DockerHubClient.transformScanResults d ns name tag))) := by
  refine ⟨fun rh => ?_, fun s rh hs => ?_, ?_, fun d => ?_⟩
  · have hin : DockerHubClient.getVulnerabilitiesInner repo tag now (.httpError 404 rh) = .ok none := by
      simp [DockerHubClient.getVulnerabilitiesInner, hp, ErrorHandler.normalizeOutcome,
        ErrorHandler.handleAxiosStatus, DHError.statusCode]
    show (ErrorHandler.withErrorHandling _ now 3).1 = .ok none
    rw [withEH_first_ok _ now _ hin]
  · have hne : (ErrorHandler.handleAxiosStatus now s rh).statusCode ≠ some 404 := by
      simp only [ErrorHandler.handleAxiosStatus]
      split <;> simp_all [DHError.statusCode]
    have hin : DockerHubClient.getVulnerabilitiesInner repo tag now (.httpError s rh) =
        .error (ErrorHandler.handleAxiosStatus now s rh) := by
      simp [DockerHubClient.getVulnerabilitiesInner, hp, ErrorHandler.normalizeOutcome, hne]
    exact withEH_const_error _ now _ (fun n => hin)
  · have hin : DockerHubClient.getVulnerabilitiesInner repo tag now .networkError =
        .error (.dockerHubError none) := by
      simp [DockerHubClient.getVulnerabilitiesInner, hp, ErrorHandler.normalizeOutcome,
        DHError.statusCode]
    exact withEH_const_error _ now _ (fun n => hin)
  · have hin : DockerHubClient.getVulnerabilitiesInner repo tag now (.ok d) =
        .ok (some (DockerHubClient.transformScanResults d ns name tag)) := by
      simp [DockerHubClient.getVulnerabilitiesInner, hp, ErrorHandler.normalizeOutcome]
    show (ErrorHandler.withErrorHandling _ now 3).1 = _
    rw [withEH_first_ok _ now _ hin]

/-- Witness for C8: a 404 scan on `some/repo:latest` resolves to `null`, a 500
propagates as a normalized upstream error. -/
theorem getVulnerabilities_notFound_null_witness :
    DockerHubClient.getVulnerabilities "some/repo" "latest" 0 (.httpError 404 none) = .ok none
    ∧ DockerHubClient.getVulnerabilities "some/repo" "latest" 0 (.httpError 500 none) =
        .error (.dockerHubError (some 500)) := by
  obtain ⟨h1, h2, _, _⟩ :=
    getVulnerabilities_notFound_null "some/repo" "latest" "some" "repo" 0 (by decide)
  refine ⟨h1 none, ?_⟩
  rw [h2 500 none (by decide)]
  decide

/-- Counterexample to C1 as stated: with username/password configured, no access
token, an empty token cache and a 401 rejection from the token endpoint,
`getDockerHubToken` does not return `null` — it throws `AuthenticationError`
(auth-manager.ts line 86 rethrows exactly this class). -/
theorem auth_fallback_claim_counterexample :
    (AuthManager.getDockerHubToken ⟨some "user", some "pass", none⟩ (fun _ => none) 0 none
      (.httpError 401 none)).1 = .error .authenticationError
    ∧ (AuthManager.getDockerHubToken ⟨some "user", some "pass", none⟩ (fun _ => none) 0 none
      (.httpError 401 none)).1 ≠ .ok none := by
  constructor
  · rfl
  · decide

/-- C1 amended: with no access token and configured username/password, a 401
rejection of the token request makes `getDockerHubToken` throw
`AuthenticationError` (and `createAuthHeaders` propagates it); every other token
request failure (any non-401 status, or a network failure) is swallowed:
`getDockerHubToken` returns `null` and `createAuthHeaders` returns an empty
header map with no Authorization entry, so the request proceeds anonymously. -/
theorem auth_fallback_amended (creds : AuthCredentials) (cache : TokenCache) (now : Int)
    (scope : Option String)
    (hat : truthyOpt creds.accessToken = false)
    (hu : truthyOpt creds.username = true) (hp : truthyOpt creds.password = true)
    (hmiss : cache ("dockerhub:" ++ scope.getD "default") = none) :
    ((AuthManager.getDockerHubToken creds cache now scope (.httpError 401 none)).1 =
        .error .authenticationError)
    ∧ (∀ (s : Nat) (rh : Option Int), s ≠ 401 →
        (AuthManager.getDockerHubToken creds cache now scope (.httpError s rh)).1 = .ok none)
    ∧ ((AuthManager.getDockerHubToken creds cache now scope .networkError).1 = .ok none)
    ∧ (∀ (s : Nat) (rh : Option Int), s ≠ 401 →
        (AuthManager.createAuthHeaders creds cache now scope (.httpError s rh)).1 = .ok [])
    ∧ ((AuthManager.createAuthHeaders creds cache now scope (.httpError 401 none)).1 =
        .error .authenticationError) := by
  have h401 : (AuthManager.getDockerHubToken creds cache now scope (.httpError 401 none)).1 =
      .error .authenticationError := by
    simp [AuthManager.getDockerHubToken, hat, hu, hp, hmiss, ErrorHandler.handleAxiosStatus]
  have hok : ∀ (s : Nat) (rh : Option Int), s ≠ 401 →
      (AuthManager.getDockerHubToken creds cache now scope (.httpError s rh)).1 = .ok none := by
    intro s rh hs
    have hna : ErrorHandler.handleAxiosStatus now s rh ≠ .authenticationError := by
      simp only [ErrorHandler.handleAxiosStatus]
      split <;> simp_all
    rcases hax : ErrorHandler.handleAxiosStatus now s rh with r | _ | sc
    · simp [AuthManager.getDockerHubToken, hat, hu, hp, hmiss, hax]
    · exact absurd hax hna
    · simp [AuthManager.getDockerHubToken, hat, hu, hp, hmiss, hax]
  have hnet : (AuthManager.getDockerHubToken creds cache now scope .networkError).1 = .ok none := by
    simp [AuthManager.getDockerHubToken, hat, hu, hp, hmiss]
  refine ⟨h401, hok, hnet, fun s rh hs => ?_, ?_⟩
  · simp [AuthManager.createAuthHeaders, hok s rh hs]
  · simp [AuthManager.createAuthHeaders, h401]

/-- Witness for the amended C1: concrete invalid credentials; a 500 failure
degrades to anonymous (null token, empty headers), a 401 throws. -/
theorem auth_fallback_amended_witness :
    (AuthManager.getDockerHubToken ⟨some "user", some "pass", none⟩ (fun _ => none) 0 none
        (.httpError 500 none)).1 = .ok none
    ∧ (AuthManager.createAuthHeaders ⟨some "user", some "pass", none⟩ (fun _ => none) 0 none
        (.httpError 500 none)).1 = .ok []
    ∧ (AuthManager.getDockerHubToken ⟨some "user", some "pass", none⟩ (fun _ => none) 0 none
        (.httpError 401 none)).1 = .error .authenticationError := by
  obtain ⟨h1, h2, h3, h4, h5⟩ :=
    auth_fallback_amended ⟨some "user", some "pass", none⟩ (fun _ => none) 0 none
      (by decide) (by decide) (by decide) (by decide)
  exact ⟨h2 500 none (by decide), h4 500 none (by decide), h1⟩

/-- Counterexample to C9 as stated: a completed probe response with status 200
(no network failure) also makes `discoverAuthEndpoint` return `null`, because
`validateStatus: status === 401` turns every non-401 response into a rejection
that lands in the catch block. -/
theorem discoverAuthEndpoint_claim_counterexample :
    AuthManager.discoverAuthEndpoint "https://reg.example.com" (.response 200 none) = none
    ∧ (ProbeOutcome.response 200 none ≠ ProbeOutcome.networkFailure) := by
  constructor
  · rfl
  · decide

/-- C9 amended: `discoverAuthEndpoint` probes `<registryUrl>/v2/` expecting a 401
challenge; on a 401 it returns the `realm="..."` value parsed from the
`WWW-Authenticate` header, and falls back to `<scheme>://auth.<host>/token` when
the header is missing or carries no realm; it returns `null` on a total network
failure, but also on any response whose status is not 401 (only the 401
challenge is treated as success), and when the fallback guess cannot be built
because the registry URL does not parse. -/
theorem discoverAuthEndpoint_amended :
    (∀ u : String, AuthManager.discoverAuthEndpoint u .networkFailure = none)
    ∧ (∀ (u : String) (s : Nat) (w : Option String), s ≠ 401 →
        AuthManager.discoverAuthEndpoint u (.response s w) = none)
    ∧ (∀ (u hdr : String) (realm : List Char), realmScan hdr.data = some realm →
        AuthManager.discoverAuthEndpoint u (.response 401 (some hdr)) = some (String.mk realm))
    ∧ (∀ (u p host : String), parseURLModel u = some (p, host) →
        AuthManager.discoverAuthEndpoint u (.response 401 none) =
          some (p ++ "//auth." ++ host ++ "/token"))
    ∧ (∀ (u hdr : String), realmScan hdr.data = none → parseURLModel u = none →
        AuthManager.discoverAuthEndpoint u (.response 401 (some hdr)) = none) := by
  refine ⟨fun u => rfl, fun u s w hs => ?_, fun u hdr realm hr => ?_,
    fun u p host hp => ?_, fun u hdr hr hpu => ?_⟩
  · simp [AuthManager.discoverAuthEndpoint, hs]
  · simp [AuthManager.discoverAuthEndpoint, hr]
  · simp [AuthManager.discoverAuthEndpoint, hp]
  · simp [AuthManager.discoverAuthEndpoint, hr, hpu]

/-- Witness for the amended C9: network failure and non-401 probes give `null`;
a realm in the challenge is returned; a missing header falls back to the guess. -/
theorem discoverAuthEndpoint_amended_witness :
    AuthManager.discoverAuthEndpoint "https://reg.example.com" .networkFailure = none
    ∧ AuthManager.discoverAuthEndpoint "https://reg.example.com" (.response 404 none) = none
    ∧ AuthManager.discoverAuthEndpoint "https://reg.example.com"
        (.response 401 (some "Bearer realm=\"https://auth.example.io/token\",service=\"reg\"")) =
        some "https://auth.example.io/token"
    ∧ AuthManager.discoverAuthEndpoint "https://reg.example.com" (.response 401 none) =
        some ("https:" ++ "//auth." ++ "reg.example.com" ++ "/token") := by
  refine ⟨discoverAuthEndpoint_amended.1 _,
    discoverAuthEndpoint_amended.2.1 _ 404 none (by decide), ?_, ?_⟩
  · have h := discoverAuthEndpoint_amended.2.2.1 "https://reg.example.com"
      "Bearer realm=\"https://auth.example.io/token\",service=\"reg\""
      ("https://auth.example.io/token").data (by decide)
    rw [strMk_data] at h
    exact h
  · exact discoverAuthEndpoint_amended.2.2.2.1 _ "https:" "reg.example.com" (by decide)

/-- Counterexample to C7 as stated: for a private registry, a second token
acquisition within the cached token's lifetime does return the cached token and
performs no token-endpoint request, but it is not free of network calls — the
source calls `discoverAuthEndpoint` (one probe request to `<url>/v2/`) before it
consults the token cache, so the probe count of this call is 1, not 0. -/
theorem token_reuse_claim_counterexample :
    (AuthManager.getPrivateRegistryToken ⟨"https://reg.example.com", ⟨some "u", some "p", none⟩⟩
      (fun k => if k = "registry:https://reg.example.com:default" then some ⟨"tok", 1000000⟩ else none)
      0 none (.response 401 none) (.ok ⟨"fresh", none⟩)).1 = .ok (some "tok")
    ∧ (AuthManager.getPrivateRegistryToken ⟨"https://reg.example.com", ⟨some "u", some "p", none⟩⟩
      (fun k => if k = "registry:https://reg.example.com:default" then some ⟨"tok", 1000000⟩ else none)
      0 none (.response 401 none) (.ok ⟨"fresh", none⟩)).2.2.1 = 1 := by
  constructor
  · rfl
  · rfl

/-- C7 amended: a token cached with `expiresAt > now` is always reused rather than
re-requested, scoped by registry identity plus scope.  For the default registry a
cache hit returns the cached token with zero network requests, and a fresh
acquisition performs exactly one token-endpoint request and caches the result —
so two consecutive acquisitions for the same scope within the token's lifetime
issue exactly one token request.  For a private registry a cache hit likewise
issues no token-endpoint request, but still performs the one endpoint-discovery
probe that the source runs before consulting the cache. -/
theorem token_reuse_amended :
    (∀ (creds : AuthCredentials) (cache : TokenCache) (now : Int) (scope : Option String)
        (net : AxiosOutcome TokenResponse) (tok : String) (exp : Int),
      truthyOpt creds.accessToken = false → truthyOpt creds.username = true →
      truthyOpt creds.password = true →
      cache ("dockerhub:" ++ scope.getD "default") = some ⟨tok, exp⟩ → now < exp →
      AuthManager.getDockerHubToken creds cache now scope net = (.ok (some tok), cache, 0))
    ∧ (∀ (creds : AuthCredentials) (cache : TokenCache) (now : Int) (scope : Option String)
        (tok : String) (ein : Option Int),
      truthyOpt creds.accessToken = false → truthyOpt creds.username = true →
      truthyOpt creds.password = true →
      cache ("dockerhub:" ++ scope.getD "default") = none →
      AuthManager.getDockerHubToken creds cache now scope (.ok ⟨tok, ein⟩) =
        (.ok (some tok),
          TokenCache.update cache ("dockerhub:" ++ scope.getD "default")
            (some ⟨tok, now + (ein.getD 3600) * 1000⟩), 1))
    ∧ (∀ (ra : RegistryAuthM) (cache : TokenCache) (now : Int) (scope : Option String)
        (probe : ProbeOutcome) (net : AxiosOutcome TokenResponse)
        (tok : String) (exp : Int) (authUrl : String),
      truthyOpt ra.credentials.username = true → truthyOpt ra.credentials.password = true →
      AuthManager.discoverAuthEndpoint ra.url probe = some authUrl →
      cache ("registry:" ++ ra.url ++ ":" ++ scope.getD "default") = some ⟨tok, exp⟩ →
      now < exp →
      AuthManager.getPrivateRegistryToken ra cache now scope probe net =
        (.ok (some tok), cache, 1, 0)) := by
  refine ⟨fun creds cache now scope net tok exp hat hu hp hhit hfresh => ?_,
    fun creds cache now scope tok ein hat hu hp hmiss => ?_,
    fun ra cache now scope probe net tok exp authUrl hu hp hdisc hhit hfresh => ?_⟩
  · simp [AuthManager.getDockerHubToken, hat, hu, hp, hhit, hfresh]
  · simp [AuthManager.getDockerHubToken, hat, hu, hp, hmiss]
  · simp [AuthManager.getPrivateRegistryToken, hu, hp, hdisc, hhit, hfresh]

/-- Witness for the amended C7: a default-registry cache hit costs zero requests;
a fresh default-registry acquisition costs exactly one; a private-registry cache
hit costs zero token requests but one discovery probe. -/
theorem token_reuse_amended_witness :
    AuthManager.getDockerHubToken ⟨some "u", some "p", none⟩
        (fun k => if k = "dockerhub:default" then some ⟨"tok", 3600000⟩ else none) 5 none
        (.httpError 500 none) =
      (.ok (some "tok"),
        (fun k => if k = "dockerhub:default" then some ⟨"tok", 3600000⟩ else none), 0)
    ∧ (AuthManager.getDockerHubToken ⟨some "u", some "p", none⟩ (fun _ => none) 0 none
        (.ok ⟨"tok", none⟩)).2.2 = 1
    ∧ (AuthManager.getPrivateRegistryToken ⟨"https://reg.example.com", ⟨some "u", some "p", none⟩⟩
        (fun k => if k = "registry:https://reg.example.com:default" then some ⟨"tok", 1000000⟩ else none)
        0 none (.response 401 none) (.ok ⟨"fresh", none⟩)).2.2 = (1, 0) := by
  refine ⟨?_, ?_, ?_⟩
  · exact token_reuse_amended.1 ⟨some "u", some "p", none⟩
      (fun k => if k = "dockerhub:default" then some ⟨"tok", 3600000⟩ else none) 5 none
      (.httpError 500 none) "tok" 3600000
      (by decide) (by decide) (by decide) (by decide) (by decide)
  · have h := token_reuse_amended.2.1 ⟨some "u", some "p", none⟩ (fun _ => none) 0 none
      "tok" none (by decide) (by decide) (by decide) (by decide)
    rw [h]
  · have h := token_reuse_amended.2.2 ⟨"https://reg.example.com", ⟨some "u", some "p", none⟩⟩
      (fun k => if k = "registry:https://reg.example.com:default" then some ⟨"tok", 1000000⟩ else none)
      0 none (.response 401 none) (.ok ⟨"fresh", none⟩) "tok" 1000000
      "https://auth.reg.example.com/token" (by decide) (by decide) (by decide) (by decide)
      (by decide)
    rw [h]

/-! Facts about the `encodeURIComponent` model, leading to its injectivity. -/

theorem char_toNat_lt (c : Char) : c.toNat < 1114112 := by
  rcases c.valid with h | ⟨_, h2⟩
  · exact lt_trans h (by norm_num)
  · exact h2

theorem char_toNat_injective (a b : Char) (h : a.toNat = b.toNat) : a = b := by
  apply Char.ext
  apply UInt32.ext
  exact h

theorem hexUpper_inj (a b : Nat) (ha : a < 16) (hb : b < 16) (h : hexUpper a = hexUpper b) :
    a = b := by
  revert h
  interval_cases a <;> interval_cases b <;> decide

theorem hexUpper_ne_pct (n : Nat) (h : n < 16) : hexUpper n ≠ '%' := by
  interval_cases n <;> decide

theorem hexUpper_ne_amp (n : Nat) (h : n < 16) : hexUpper n ≠ '&' := by
  interval_cases n <;> decide

theorem hexUpper_ne_eqs (n : Nat) (h : n < 16) : hexUpper n ≠ '=' := by
  interval_cases n <;> decide

theorem utf8Bytes_lt256 (n : Nat) (hn : n < 1114112) : ∀ b ∈ utf8Bytes n, b < 256 := by
  intro b hb
  unfold utf8Bytes at hb
  split_ifs at hb with h1 h2 h3 <;> simp at hb
  · omega
  · rcases hb with rfl | rfl <;> omega
  · rcases hb with rfl | rfl | rfl <;> omega
  · rcases hb with rfl | rfl | rfl | rfl <;> omega

theorem utf8Bytes_ne_nil (n : Nat) : utf8Bytes n ≠ [] := by
  unfold utf8Bytes
  split_ifs <;> simp

theorem utf8Bytes_head_length (m n : Nat) (hm : m < 1114112) (hn : n < 1114112)
    (h : (utf8Bytes m).head? = (utf8Bytes n).head?) :
    (utf8Bytes m).length = (utf8Bytes n).length := by
  unfold utf8Bytes at h ⊢
  split_ifs at h ⊢ <;> simp_all <;> omega

theorem utf8Bytes_inj (m n : Nat) (hm : m < 1114112) (hn : n < 1114112)
    (h : utf8Bytes m = utf8Bytes n) : m = n := by
  unfold utf8Bytes at h
  split_ifs at h <;> simp_all <;> omega

theorem pctFlat_inj : ∀ (B₁ B₂ : List Nat), B₁.length = B₂.length →
    (∀ b ∈ B₁, b < 256) → (∀ b ∈ B₂, b < 256) →
    B₁.flatMap pctEncodeByte = B₂.flatMap pctEncodeByte → B₁ = B₂ := by
  intro B₁
  induction B₁ with
  | nil =>
    intro B₂ hlen _ _ _
    cases B₂ with
    | nil => rfl
    | cons c cs => simp at hlen
  | cons b bs ih =>
    intro B₂ hlen h1 h2 h
    cases B₂ with
    | nil => simp at hlen
    | cons c cs =>
      simp only [List.flatMap_cons, pctEncodeByte, List.cons_append, List.nil_append,
        List.cons.injEq] at h
      obtain ⟨-, hd1, hd2, hrest⟩ := h
      have hb : b < 256 := h1 b (List.mem_cons_self b bs)
      have hc : c < 256 := h2 c (List.mem_cons_self c cs)
      have e1 : b / 16 = c / 16 := hexUpper_inj _ _ (by omega) (by omega) hd1
      have e2 : b % 16 = c % 16 := hexUpper_inj _ _ (by omega) (by omega) hd2
      have hbc : b = c := by omega
      subst hbc
      rw [ih cs (by simpa using hlen)
        (fun x hx => h1 x (List.mem_cons_of_mem b hx))
        (fun x hx => h2 x (List.mem_cons_of_mem b hx)) hrest]

theorem encodeChar_ne_nil (c : Char) : encodeChar c ≠ [] := by
  unfold encodeChar
  split_ifs
  · simp
  · rcases hB : utf8Bytes c.toNat with _ | ⟨b, bs⟩
    · exact absurd hB (utf8Bytes_ne_nil _)
    · simp [hB, pctEncodeByte]

theorem encodeChar_append_inj (c₁ c₂ : Char) (r₁ r₂ : List Char)
    (h : encodeChar c₁ ++ r₁ = encodeChar c₂ ++ r₂) : c₁ = c₂ ∧ r₁ = r₂ := by
  unfold encodeChar at h
  by_cases u1 : isUnreservedURI c₁ = true <;> by_cases u2 : isUnreservedURI c₂ = true
  · rw [if_pos u1, if_pos u2] at h
    simp only [List.cons_append, List.nil_append, List.cons.injEq] at h
    exact ⟨h.1, h.2⟩
  · rw [if_pos u1, if_neg u2] at h
    rcases hB : utf8Bytes c₂.toNat with _ | ⟨b, bs⟩
    · exact absurd hB (utf8Bytes_ne_nil _)
    · rw [hB] at h
      simp only [List.flatMap_cons, pctEncodeByte, List.cons_append, List.nil_append,
        List.append_assoc, List.cons.injEq] at h
      exact absurd u1 (by rw [h.1]; decide)
  · rw [if_neg u1, if_pos u2] at h
    rcases hB : utf8Bytes c₁.toNat with _ | ⟨b, bs⟩
    · exact absurd hB (utf8Bytes_ne_nil _)
    · rw [hB] at h
      simp only [List.flatMap_cons, pctEncodeByte, List.cons_append, List.nil_append,
        List.append_assoc, List.cons.injEq] at h
      exact absurd u2 (by rw [← h.1]; decide)
  · rw [if_neg u1, if_neg u2] at h
    rcases hB₁ : utf8Bytes c₁.toNat with _ | ⟨b₁, bs₁⟩
    · exact absurd hB₁ (utf8Bytes_ne_nil _)
    rcases hB₂ : utf8Bytes c₂.toNat with _ | ⟨b₂, bs₂⟩
    · exact absurd hB₂ (utf8Bytes_ne_nil _)
    rw [hB₁, hB₂] at h
    simp only [List.flatMap_cons, pctEncodeByte, List.cons_append, List.nil_append,
      List.append_assoc, List.cons.injEq] at h
    obtain ⟨-, hd1, hd2, hrest⟩ := h
    have hm₁ : b₁ ∈ utf8Bytes c₁.toNat := by rw [hB₁]; exact List.mem_cons_self b₁ bs₁
    have hm₂ : b₂ ∈ utf8Bytes c₂.toNat := by rw [hB₂]; exact List.mem_cons_self b₂ bs₂
    have hb₁ : b₁ < 256 := utf8Bytes_lt256 _ (char_toNat_lt c₁) b₁ hm₁
    have hb₂ : b₂ < 256 := utf8Bytes_lt256 _ (char_toNat_lt c₂) b₂ hm₂
    have e1 : b₁ / 16 = b₂ / 16 := hexUpper_inj _ _ (by omega) (by omega) hd1
    have e2 : b₁ % 16 = b₂ % 16 := hexUpper_inj _ _ (by omega) (by omega) hd2
    have hbb : b₁ = b₂ := by omega
    subst hbb
    have hlen : (utf8Bytes c₁.toNat).length = (utf8Bytes c₂.toNat).length := by
      apply utf8Bytes_head_length _ _ (char_toNat_lt c₁) (char_toNat_lt c₂)
      rw [hB₁, hB₂]
      rfl
    rw [hB₁, hB₂] at hlen
    simp only [List.length_cons, Nat.add_right_cancel_iff] at hlen
    have hfl : (bs₁.flatMap pctEncodeByte).length = (bs₂.flatMap pctEncodeByte).length := by
      have l1 : ∀ B : List Nat, (B.flatMap pctEncodeByte).length = 3 * B.length := by
        intro B
        induction B with
        | nil => simp
        | cons x xs ihx => simp [pctEncodeByte, ihx]; omega
      rw [l1, l1, hlen]
    obtain ⟨hflat, hr⟩ := List.append_inj hrest hfl
    have hbs : bs₁ = bs₂ := by
      apply pctFlat_inj bs₁ bs₂ hlen
      · exact fun x hx => utf8Bytes_lt256 _ (char_toNat_lt c₁) x
          (by rw [hB₁]; exact List.mem_cons_of_mem b₁ hx)
      · exact fun x hx => utf8Bytes_lt256 _ (char_toNat_lt c₂) x
          (by rw [hB₂]; exact List.mem_cons_of_mem b₁ hx)
      · exact hflat
    have hBB : utf8Bytes c₁.toNat = utf8Bytes c₂.toNat := by rw [hB₁, hB₂, hbs]
    have hnn : c₁.toNat = c₂.toNat :=
      utf8Bytes_inj _ _ (char_toNat_lt c₁) (char_toNat_lt c₂) hBB
    exact ⟨char_toNat_injective c₁ c₂ hnn, hr⟩

theorem encodeList_inj : ∀ (l₁ l₂ : List Char),
    l₁.flatMap encodeChar = l₂.flatMap encodeChar → l₁ = l₂ := by
  intro l₁
  induction l₁ with
  | nil =>
    intro l₂ h
    cases l₂ with
    | nil => rfl
    | cons d ds =>
      exfalso
      simp only [List.flatMap_nil, List.flatMap_cons] at h
      rcases List.append_eq_nil.mp h.symm with ⟨hnil, -⟩
      exact encodeChar_ne_nil d hnil
  | cons c cs ih =>
    intro l₂ h
    cases l₂ with
    | nil =>
      exfalso
      simp only [List.flatMap_nil, List.flatMap_cons] at h
      rcases List.append_eq_nil.mp h with ⟨hnil, -⟩
      exact encodeChar_ne_nil c hnil
    | cons d ds =>
      simp only [List.flatMap_cons] at h
      obtain ⟨hc, hr⟩ := encodeChar_append_inj c d _ _ h
      rw [hc, ih ds hr]

theorem encodeURIComponent_inj (a b : String)
    (h : encodeURIComponent a = encodeURIComponent b) : a = b := by
  apply String.ext
  apply encodeList_inj
  exact congrArg String.data h

theorem encodeChar_no_amp_eqs (c : Char) : '&' ∉ encodeChar c ∧ '=' ∉ encodeChar c := by
  unfold encodeChar
  split_ifs with u
  · constructor <;> intro hm <;> simp at hm <;> (rw [← hm] at u; exact absurd u (by decide))
  · have hbound := utf8Bytes_lt256 c.toNat (char_toNat_lt c)
    constructor <;> intro hm <;> obtain ⟨b, hb, hx⟩ := List.mem_flatMap.mp hm <;>
      have hblt : b < 256 := hbound b hb <;>
      simp only [pctEncodeByte, List.mem_cons, List.not_mem_nil, or_false] at hx
    · rcases hx with hx | hx | hx
      · exact absurd hx.symm (by decide)
      · exact absurd hx.symm (hexUpper_ne_amp _ (by omega))
      · exact absurd hx.symm (hexUpper_ne_amp _ (by omega))
    · rcases hx with hx | hx | hx
      · exact absurd hx.symm (by decide)
      · exact absurd hx.symm (hexUpper_ne_eqs _ (by omega))
      · exact absurd hx.symm (hexUpper_ne_eqs _ (by omega))

theorem enc_data_no_amp (s : String) : '&' ∉ (encodeURIComponent s).data := by
  intro hm
  obtain ⟨c, -, hc⟩ := List.mem_flatMap.mp hm
  exact (encodeChar_no_amp_eqs c).1 hc

theorem amp_split_inj : ∀ (a b r s : List Char), '&' ∉ a → '&' ∉ b →
    a ++ '&' :: r = b ++ '&' :: s → a = b ∧ r = s := by
  intro a
  induction a with
  | nil =>
    intro b r s _ hb h
    cases b with
    | nil => simpa using h
    | cons d ds =>
      exfalso
      simp only [List.nil_append, List.cons_append, List.cons.injEq] at h
      apply hb
      rw [h.1]
      exact List.mem_cons_self d ds
  | cons c cs ih =>
    intro b r s ha hb h
    cases b with
    | nil =>
      exfalso
      simp only [List.nil_append, List.cons_append, List.cons.injEq] at h
      apply ha
      rw [← h.1]
      exact List.mem_cons_self c cs
    | cons d ds =>
      simp only [List.cons_append, List.cons.injEq] at h
      obtain ⟨hcd, hrest⟩ := h
      have ha' : '&' ∉ cs := fun hm => ha (List.mem_cons_of_mem c hm)
      have hb' : '&' ∉ ds := fun hm => hb (List.mem_cons_of_mem d hm)
      obtain ⟨e1, e2⟩ := ih ds r s ha' hb' hrest
      exact ⟨by rw [hcd, e1], e2⟩

theorem part_data (k v : String) : (k ++ "=" ++ v).data = k.data ++ '=' :: v.data := by
  rw [String.data_append, String.data_append]
  simp

theorem joinAmp_cons_data (p q : String) (rest : List String) :
    (joinAmp (p :: q :: rest)).data = p.data ++ '&' :: (joinAmp (q :: rest)).data := by
  show (p ++ "&" ++ joinAmp (q :: rest)).data = _
  rw [String.data_append, String.data_append]
  simp

theorem joinAmp_parts_ne_empty (ks : List String) (f : String → String) (h : ks ≠ []) :
    joinAmp (ks.map (fun k => k ++ "=" ++ encodeURIComponent (f k))) ≠ "" := by
  cases ks with
  | nil => exact absurd rfl h
  | cons k0 kt =>
    cases kt with
    | nil =>
      intro hc
      have hd := congrArg String.data hc
      simp only [List.map_cons, List.map_nil, joinAmp, part_data] at hd
      simp at hd
    | cons k1 kt' =>
      intro hc
      have hd := congrArg String.data hc
      simp only [List.map_cons, joinAmp_cons_data] at hd
      simp at hd

theorem joinAmp_parts_inj : ∀ (ks : List String) (f g : String → String),
    joinAmp (ks.map (fun k => k ++ "=" ++ encodeURIComponent (f k))) =
      joinAmp (ks.map (fun k => k ++ "=" ++ encodeURIComponent (g k))) →
    ∀ k ∈ ks, f k = g k := by
  intro ks
  induction ks with
  | nil =>
    intro f g _ k hk
    exact absurd hk (List.not_mem_nil k)
  | cons k0 kt ih =>
    intro f g h k hk
    cases kt with
    | nil =>
      simp only [List.map_cons, List.map_nil, joinAmp] at h
      have hdata := congrArg String.data h
      rw [part_data, part_data] at hdata
      have hcons := List.append_cancel_left hdata
      simp only [List.cons.injEq, true_and] at hcons
      have hfg : f k0 = g k0 := encodeURIComponent_inj _ _ (String.ext hcons)
      simp only [List.mem_singleton] at hk
      rw [hk, hfg]
    | cons k1 kt' =>
      simp only [List.map_cons] at h
      have hdata := congrArg String.data h
      rw [joinAmp_cons_data, joinAmp_cons_data, part_data, part_data] at hdata
      simp only [List.append_assoc, List.cons_append] at hdata
      have hcons := List.append_cancel_left hdata
      simp only [List.cons.injEq, true_and] at hcons
      obtain ⟨henc, hrest⟩ := amp_split_inj _ _ _ _ (enc_data_no_amp (f k0))
        (enc_data_no_amp (g k0)) hcons
      have hfg : f k0 = g k0 := encodeURIComponent_inj _ _ (String.ext henc)
      have hjoin : joinAmp ((k1 :: kt').map (fun k => k ++ "=" ++ encodeURIComponent (f k))) =
          joinAmp ((k1 :: kt').map (fun k => k ++ "=" ++ encodeURIComponent (g k))) := by
        apply String.ext
        simpa [List.map_cons] using hrest
      rcases List.mem_cons.mp hk with rfl | hk'
      · exact hfg
      · exact ih f g hjoin k hk'

theorem lookup_perm_eq : ∀ {A B : List (String × String)}, A.Perm B →
    (A.map Prod.fst).Nodup → ∀ k, A.lookup k = B.lookup k := by
  intro A B h
  induction h with
  | nil => intro _ k; rfl
  | cons x hp ihh =>
    intro hn k
    rcases x with ⟨a, v⟩
    rw [List.map_cons] at hn
    obtain ⟨-, hn2⟩ := List.nodup_cons.mp hn
    by_cases hk : k = a
    · subst hk
      simp [List.lookup]
    · have hb : (k == a) = false := by simp [hk]
      simp only [List.lookup, hb]
      exact ihh hn2 k
  | swap x y l =>
    intro hn k
    rcases x with ⟨a, v⟩
    rcases y with ⟨b, w⟩
    rw [List.map_cons, List.map_cons] at hn
    obtain ⟨hbn, -⟩ := List.nodup_cons.mp hn
    have hab : b ≠ a := fun hc => hbn (hc ▸ List.mem_cons_self a _)
    by_cases hka : k = a <;> by_cases hkb : k = b
    · exact absurd (hkb ▸ hka : b = a) hab
    · subst hka
      have h1 : (k == b) = false := by simp [hkb]
      simp [List.lookup, h1]
    · subst hkb
      have h1 : (k == a) = false := by simp [hka]
      simp [List.lookup, h1]
    · have h1 : (k == a) = false := by simp [hka]
      have h2 : (k == b) = false := by simp [hkb]
      simp [List.lookup, h1, h2]
  | trans h1 h2 ih1 ih2 =>
    intro hn k
    rw [ih1 hn k, ih2 ((h1.map Prod.fst).nodup hn) k]

theorem lookup_exists_ne : ∀ (A B : List (String × String)),
    A.map Prod.fst = B.map Prod.fst → (A.map Prod.fst).Nodup → A ≠ B →
    ∃ k v w, A.lookup k = some v ∧ B.lookup k = some w ∧ v ≠ w ∧ k ∈ A.map Prod.fst := by
  intro A
  induction A with
  | nil =>
    intro B hmap _ hne
    cases B with
    | nil => exact absurd rfl hne
    | cons y ys => simp at hmap
  | cons x xs ih =>
    intro B hmap hn hne
    rcases x with ⟨a, v⟩
    cases B with
    | nil => simp at hmap
    | cons y ys =>
      rcases y with ⟨b, w⟩
      simp only [List.map_cons, List.cons.injEq] at hmap
      obtain ⟨hab, hmap2⟩ := hmap
      subst hab
      rw [List.map_cons] at hn
      obtain ⟨hnotin, hn2⟩ := List.nodup_cons.mp hn
      by_cases hvw : v = w
      · subst hvw
        have hne2 : xs ≠ ys := fun hcontra => hne (by rw [hcontra])
        obtain ⟨k, vv, ww, h1, h2, h3, h4⟩ := ih ys hmap2 hn2 hne2
        have hka : k ≠ a := by
          intro hcontra
          subst hcontra
          exact hnotin h4
        have hb : (k == a) = false := by simp [hka]
        refine ⟨k, vv, ww, ?_, ?_, h3, List.mem_cons_of_mem _ h4⟩
        · simp only [List.lookup, hb]
          exact h1
        · simp only [List.lookup, hb]
          exact h2
      · exact ⟨a, v, w, by simp [List.lookup], by simp [List.lookup], hvw,
          List.mem_cons_self _ _⟩

theorem generateKey_ne_nil_eq (e : String) (C : List (String × String)) (h : C ≠ []) :
    CacheManager.generateKey e C = e ++ "?" ++
      joinAmp ((List.insertionSort strLe (C.map Prod.fst)).map
        (fun k => k ++ "=" ++ encodeURIComponent ((C.lookup k).getD ""))) := by
  have hksne : List.insertionSort strLe (C.map Prod.fst) ≠ [] := by
    intro hc
    have hlen := (List.perm_insertionSort strLe (C.map Prod.fst)).length_eq
    rw [hc] at hlen
    cases C with
    | nil => exact h rfl
    | cons z zs => simp at hlen
  have hjne := joinAmp_parts_ne_empty _ (fun k => (C.lookup k).getD "") hksne
  simp only [CacheManager.generateKey, if_neg hjne]

/-- C3: `generateKey` is deterministic and insertion-order independent — for any
two parameter maps equal as sets of key/value pairs (permutations of each other,
keys distinct) the generated keys coincide; the key is built exactly as the spec
words it (sort parameter names lexicographically, join `name=urlencode(value)`
pairs with `&`, append as `endpoint?...`, bare endpoint for the empty map); and
two maps over the same keys differing in some value produce different keys. -/
theorem generateKey_deterministic_injective :
    (∀ (e : String) (A B : List (String × String)), A.Perm B → (A.map Prod.fst).Nodup →
      CacheManager.generateKey e A = CacheManager.generateKey e B)
    ∧ (∀ (e : String) (A : List (String × String)),
      CacheManager.generateKey e A = CacheManager.generateKeySpec e A)
    ∧ (∀ (e : String) (A B : List (String × String)), A.map Prod.fst = B.map Prod.fst →
      (A.map Prod.fst).Nodup → A ≠ B →
      CacheManager.generateKey e A ≠ CacheManager.generateKey e B) := by
  refine ⟨fun e A B hperm hn => ?_, fun e A => ?_, fun e A B hmap hn hne => ?_⟩
  · have hks : List.insertionSort strLe (A.map Prod.fst) =
        List.insertionSort strLe (B.map Prod.fst) := by
      apply List.eq_of_perm_of_sorted
        ((List.perm_insertionSort _ _).trans
          ((hperm.map _).trans (List.perm_insertionSort strLe (B.map Prod.fst)).symm))
        (List.sorted_insertionSort _ _) (List.sorted_insertionSort _ _)
    have hlook : ∀ k, A.lookup k = B.lookup k := lookup_perm_eq hperm hn
    have hparts : (List.insertionSort strLe (B.map Prod.fst)).map
          (fun k => k ++ "=" ++ encodeURIComponent ((A.lookup k).getD "")) =
        (List.insertionSort strLe (B.map Prod.fst)).map
          (fun k => k ++ "=" ++ encodeURIComponent ((B.lookup k).getD "")) :=
      List.map_congr_left (fun k _ => by rw [hlook k])
    simp only [CacheManager.generateKey, hks, hparts]
  · cases A with
    | nil => rfl
    | cons x A2 =>
      rw [generateKey_ne_nil_eq e (x :: A2) (List.cons_ne_nil x A2)]
      simp only [CacheManager.generateKeySpec, if_neg (List.cons_ne_nil x A2)]
  · intro heq
    have hABnil : A ≠ [] := by
      intro hA
      subst hA
      cases B with
      | nil => exact hne rfl
      | cons y ys => simp at hmap
    have hBnil : B ≠ [] := by
      intro hB
      subst hB
      cases A with
      | nil => exact hne rfl
      | cons y ys => simp at hmap
    obtain ⟨k, v, w, hA, hB, hvw, hkmem⟩ := lookup_exists_ne _ _ hmap hn hne
    rw [generateKey_ne_nil_eq e A hABnil, generateKey_ne_nil_eq e B hBnil, ← hmap] at heq
    have hdata := congrArg String.data heq
    rw [String.data_append, String.data_append, String.data_append, String.data_append]
      at hdata
    have hj := String.ext (List.append_cancel_left hdata)
    have hpoint := joinAmp_parts_inj (List.insertionSort strLe (A.map Prod.fst))
      (fun k => (A.lookup k).getD "") (fun k => (B.lookup k).getD "") hj k
      ((List.perm_insertionSort strLe (A.map Prod.fst)).mem_iff.mpr hkmem)
    simp only [hA, hB, Option.getD_some] at hpoint
    exact hvw hpoint

/-- Witness for C3: two insertion orders of the same map share a key, the key
agrees with the spec's construction, and changing a value changes the key. -/
theorem generateKey_deterministic_injective_witness :
    CacheManager.generateKey "search" [("q", "nginx"), ("page", "1")] =
      CacheManager.generateKey "search" [("page", "1"), ("q", "nginx")]
    ∧ CacheManager.generateKey "search" [("q", "nginx")] =
      CacheManager.generateKeySpec "search" [("q", "nginx")]
    ∧ CacheManager.generateKey "e" [("a", "1")] ≠ CacheManager.generateKey "e" [("a", "2")] := by
  refine ⟨?_, generateKey_deterministic_injective.2.1 "search" _, ?_⟩
  · exact generateKey_deterministic_injective.1 "search" _ _ (by decide) (by decide)
  · exact generateKey_deterministic_injective.2.2 "e" _ _ (by decide) (by decide) (by decide)
